import Mathlib

/-
Verification development for the pgpitr repository.

Shallow embedding of `src/create_backup.rs` and `src/backup/manifest.rs`.
Bytes are modelled as `Nat`, Rust strings as `List Char`, and fallible or
panicking operations return explicit result types.  Stateful readers are
modelled by explicit state passing: a `Read::read` call becomes a function
from the reader's state to the returned bytes and the successor state.
-/

/-- State of the `Splitter` pass-through reader (create_backup.rs, lines
206-227): the bytes still to come from the wrapped source, whether the
`SplitReceiver` end of the mpsc channel is still alive, and the chunks
sent into the channel so far (in order). -/
structure SplitterState where
  source : List Nat
  receiverAlive : Bool
  sent : List (List Nat)
deriving DecidableEq

/-- Model of a plain `Read::read` call on the underlying source
(`self.inner.read(buf)` for a buffer of size `n`): the source hands out up
to `n` front bytes and keeps the rest. -/
def sourceRead (n : Nat) (src : List Nat) : List Nat × List Nat :=
  (src.take n, src.drop n)

/-- Model of `impl Read for Splitter { fn read }` (lines 218-227): read from
the inner source, forward a copy of the bytes just returned into the channel
(`let _ = self.tx.send(buf[..len].to_vec())`, whose result is discarded, so
when the receiver has been dropped the state of the queue is unchanged and
no error is surfaced), then return the bytes to the caller. -/
def Splitter.read (n : Nat) (s : SplitterState) : List Nat × SplitterState :=
  let out := (sourceRead n s.source).1
  (out, ⟨(sourceRead n s.source).2, s.receiverAlive,
    if s.receiverAlive then s.sent ++ [out] else s.sent⟩)

/-- State of the `SplitReceiver` (lines 229-241): its local `buf` of bytes
from a partially consumed chunk, and the chunks queued in the channel that
have not been received yet. -/
structure RecvState where
  buf : List Nat
  queue : List (List Nat)
deriving DecidableEq

/-- Model of `impl Read for SplitReceiver { fn read }` (lines 243-256): when
`buf` is empty, receive the next queued chunk into it (`none` models a
`recv` that blocks because the sender is alive and nothing more arrives);
then hand out at most `n` front bytes of `buf` and drain them. -/
def SplitReceiver.read (n : Nat) (s : RecvState) : Option (List Nat × RecvState) :=
  match s.buf, s.queue with
  | [], [] => none
  | [], c :: q => some (c.take n, ⟨c.drop n, q⟩)
  | b, q => some (b.take n, ⟨b.drop n, q⟩)

/-- Driving the derived reader: perform reads of the scheduled sizes until a
read returns zero bytes (the `Read` end-of-stream report).  Returns the
concatenation of all bytes handed out and `true` when end-of-stream was
reported within the schedule, `false` when the schedule ran out first;
`none` when a read would block forever. -/
def drain : List Nat → RecvState → Option (List Nat × Bool)
  | [], _ => some ([], false)
  | n :: rest, s =>
    match SplitReceiver.read n s with
    | none => none
    | some (out, s₁) =>
      if out.isEmpty then some ([], true)
      else
        match drain rest s₁ with
        | none => none
        | some (acc, e) => some (out ++ acc, e)

/-- Driving the pass-through reader the way `run` does: perform reads of the
scheduled sizes, stopping after the first read that returns zero bytes
(which is also forwarded into the channel).  Returns the list of per-read
results (the final empty one included) and the final splitter state, or
`none` when the schedule ran out before a read returned zero bytes. -/
def driveToEOF : List Nat → SplitterState → Option (List (List Nat) × SplitterState)
  | [], _ => none
  | n :: rest, s =>
    let out := (Splitter.read n s).1
    let s₁ := (Splitter.read n s).2
    if out.isEmpty then some ([out], s₁)
    else
      match driveToEOF rest s₁ with
      | none => none
      | some (outs, s₂) => some (out :: outs, s₂)

/-- Driving the pass-through reader through a whole schedule of reads
unconditionally (no stopping rule): the list of per-read results and the
final splitter state. -/
def runSchedule : List Nat → SplitterState → List (List Nat) × SplitterState
  | [], s => ([], s)
  | n :: rest, s =>
    let out := (Splitter.read n s).1
    let s₁ := (Splitter.read n s).2
    let p := runSchedule rest s₁
    (out :: p.1, p.2)

/-- Structure of a pass-through run that was driven to end-of-stream with
positive read sizes: every byte of the source is handed out exactly once,
the source is exhausted, every read result was forwarded into the channel,
and the sequence of results is a block of non-empty chunks followed by the
single empty end-of-stream chunk. -/
theorem driveToEOF_spec (sizes : List Nat) :
    ∀ (s : SplitterState) (outs : List (List Nat)) (s' : SplitterState),
      (∀ n ∈ sizes, 0 < n) → s.receiverAlive = true →
      driveToEOF sizes s = some (outs, s') →
      outs.flatten = s.source ∧ s'.source = [] ∧ s'.receiverAlive = true ∧
        s'.sent = s.sent ++ outs ∧
        ∃ good, outs = good ++ [[]] ∧ ∀ c ∈ good, c ≠ ([] : List Nat) := by
  induction sizes with
  | nil =>
    intro s outs s' _ _ h
    simp [driveToEOF] at h
  | cons n rest ih =>
    intro s outs s' hpos halive h
    have hn : 0 < n := hpos n (by simp)
    simp only [driveToEOF, Splitter.read, sourceRead, halive, if_true] at h
    rcases hsrc : s.source with _ | ⟨b, tl⟩
    · rw [hsrc] at h
      simp only [List.take_nil, List.isEmpty_nil, if_true, Option.some.injEq,
        Prod.mk.injEq] at h
      obtain ⟨houts, hs'⟩ := h
      subst houts
      refine ⟨by simp [hsrc], ?_, ?_, ?_, [], by simp, by simp⟩
      · rw [← hs']; simp
      · rw [← hs']
      · rw [← hs']
    · rw [hsrc] at h
      have htake : (b :: tl).take n ≠ [] := by
        cases n with
        | zero => omega
        | succ m => simp
      rw [if_neg (by simpa [List.isEmpty_iff] using htake)] at h
      rcases hrec : driveToEOF rest ⟨(b :: tl).drop n, true,
          s.sent ++ [(b :: tl).take n]⟩ with _ | ⟨outs₁, s₂⟩
      · rw [hrec] at h; simp at h
      · rw [hrec] at h
        simp only [Option.some.injEq, Prod.mk.injEq] at h
        obtain ⟨houts, hs'⟩ := h
        obtain ⟨hflat, hsrc2, halive2, hsent2, good, hgood, hne⟩ :=
          ih _ _ _ (fun m hm => hpos m (by simp [hm])) rfl hrec
        subst houts hs'
        refine ⟨?_, hsrc2, halive2, ?_, (b :: tl).take n :: good, by simp [hgood], ?_⟩
        · simp [hflat, hsrc]
        · simp only [hsent2]; simp
        · intro c hc
          rcases List.mem_cons.mp hc with hc | hc
          · simpa [hc] using htake
          · exact hne c hc

/-- Structure of draining the derived reader with positive read sizes when
the queue consists of non-empty chunks followed by an empty chunk: when the
drain reports end-of-stream, it has handed out exactly the local buffer
followed by the non-empty chunks, in order. -/
theorem drain_spec (rsizes : List Nat) :
    ∀ (buf acc : List Nat) (good tl : List (List Nat)),
      (∀ m ∈ rsizes, 0 < m) → (∀ c ∈ good, c ≠ ([] : List Nat)) →
      drain rsizes ⟨buf, good ++ [] :: tl⟩ = some (acc, true) →
      acc = buf ++ good.flatten := by
  induction rsizes with
  | nil =>
    intro buf acc good tl _ _ h
    simp [drain] at h
  | cons m rest ih =>
    intro buf acc good tl hpos hgood h
    have hm : 0 < m := hpos m (by simp)
    have hrest : ∀ k ∈ rest, 0 < k := fun k hk => hpos k (by simp [hk])
    rcases hbuf : buf with _ | ⟨b, bt⟩
    · rcases hgd : good with _ | ⟨c, gtl⟩
      · subst hbuf hgd
        simp only [drain, SplitReceiver.read, List.nil_append] at h
        simp only [List.take_nil, List.drop_nil, List.isEmpty_nil, if_true,
          Option.some.injEq, Prod.mk.injEq] at h
        simp [← h.1]
      · subst hbuf hgd
        have hcne : c ≠ [] := hgood c (by simp)
        simp only [drain, SplitReceiver.read, List.cons_append] at h
        have htake : c.take m ≠ [] := by
          rcases c with _ | ⟨x, xs⟩
          · exact absurd rfl hcne
          · cases m with
            | zero => omega
            | succ k => simp
        rw [if_neg (by simpa [List.isEmpty_iff] using htake)] at h
        rcases hrec : drain rest ⟨c.drop m, gtl ++ [] :: tl⟩ with _ | ⟨⟨acc₁, e⟩⟩
        · rw [hrec] at h; simp at h
        · rw [hrec] at h
          simp only [Option.some.injEq, Prod.mk.injEq] at h
          obtain ⟨hacc, he⟩ := h
          subst he
          have := ih (c.drop m) acc₁ gtl tl hrest (fun d hd => hgood d (by simp [hd])) hrec
          subst hacc
          rw [this, ← List.append_assoc, List.take_append_drop]
          simp
    · subst hbuf
      simp only [drain, SplitReceiver.read] at h
      have htake : (b :: bt).take m ≠ [] := by
        cases m with
        | zero => omega
        | succ k => simp
      rw [if_neg (by simpa [List.isEmpty_iff] using htake)] at h
      rcases hrec : drain rest ⟨(b :: bt).drop m, good ++ [] :: tl⟩ with _ | ⟨⟨acc₁, e⟩⟩
      · rw [hrec] at h; simp at h
      · rw [hrec] at h
        simp only [Option.some.injEq, Prod.mk.injEq] at h
        obtain ⟨hacc, he⟩ := h
        subst he
        have := ih ((b :: bt).drop m) acc₁ good tl hrest hgood hrec
        subst hacc
        rw [this, ← List.append_assoc, List.take_append_drop]

/-- C1 (amended): for every source byte stream and every schedule of reads in
which each read requests at least one byte, with the pass-through (`Splitter`)
reader driven until it reports end-of-stream, the concatenation of the bytes
it returns equals the source stream exactly; and the concatenation of the
bytes returned by the derived (`SplitReceiver`) reader, read (with positive
request sizes) until it reports end-of-stream, equals that same sequence, in
order, with no gaps and no reordering.  (The FIFO channel delivers the chunks
to the receiver in send order, so the receiver consuming the final queue is
faithful to any concurrent interleaving.) -/
theorem tee_pass_through_and_derived_reproduce_source
    (src : List Nat) (sizes rsizes : List Nat)
    (outs : List (List Nat)) (s' : SplitterState) (acc : List Nat)
    (hpos : ∀ n ∈ sizes, 0 < n) (hrpos : ∀ m ∈ rsizes, 0 < m)
    (hdrive : driveToEOF sizes ⟨src, true, []⟩ = some (outs, s'))
    (hdrain : drain rsizes ⟨[], s'.sent⟩ = some (acc, true)) :
    outs.flatten = src ∧ acc = src := by
  obtain ⟨hflat, -, -, hsent, good, hgood, hne⟩ :=
    driveToEOF_spec sizes _ _ _ hpos rfl hdrive
  simp only [List.nil_append] at hsent
  simp only at hflat
  have hq : s'.sent = good ++ [] :: ([] : List (List Nat)) := by
    rw [hsent, hgood]
  rw [hq] at hdrain
  have hacc : acc = [] ++ good.flatten := drain_spec rsizes [] acc good [] hrpos hne hdrain
  have hgf : good.flatten = src := by
    rw [← hflat, hgood]; simp
  exact ⟨hflat, by simp [hacc, hgf]⟩

/-- Witness for C1: source `[7, 8, 9]`, pass-through schedule `[2, 2, 1]`,
derived-reader schedule `[1, 5, 5, 5]`; both concatenations recover the
source. -/
theorem tee_pass_through_and_derived_reproduce_source_witness :
    (∀ n ∈ [2, 2, 1], 0 < n) ∧ (∀ m ∈ [1, 5, 5, 5], 0 < m) ∧
    driveToEOF [2, 2, 1] ⟨[7, 8, 9], true, []⟩ =
      some ([[7, 8], [9], []], ⟨[], true, [[7, 8], [9], []]⟩) ∧
    drain [1, 5, 5, 5]
        ⟨[], (⟨[], true, [[7, 8], [9], []]⟩ : SplitterState).sent⟩ =
      some ([7, 8, 9], true) ∧
    ([[7, 8], [9], []] : List (List Nat)).flatten = [7, 8, 9] ∧
    ([7, 8, 9] : List Nat) = [7, 8, 9] :=
  ⟨by decide, by decide, by decide, by decide,
    tee_pass_through_and_derived_reproduce_source [7, 8, 9] [2, 2, 1] [1, 5, 5, 5]
      [[7, 8], [9], []] ⟨[], true, [[7, 8], [9], []]⟩ [7, 8, 9]
      (by decide) (by decide) (by decide) (by decide)⟩

/-- Counterexample to C1 as stated: with source `[1, 2]` and the pass-through
read schedule `[1, 0, 2, 1]` (a schedule of reads whose second read uses a
zero-sized buffer), the pass-through reader still returns the source exactly
and its last read reports end-of-stream, but the zero-sized read forwards a
zero-length chunk into the queue; the derived reader, read until it reports
end-of-stream, returns only `[1]`, not the source `[1, 2]`. -/
theorem tee_zero_sized_read_breaks_derived_copy :
    (runSchedule [1, 0, 2, 1] ⟨[1, 2], true, []⟩).1.flatten = [1, 2] ∧
    (runSchedule [1, 0, 2, 1] ⟨[1, 2], true, []⟩).1.getLast? = some [] ∧
    (runSchedule [1, 0, 2, 1] ⟨[1, 2], true, []⟩).2.sent = [[1], [], [2], []] ∧
    drain [5, 5, 5, 5] ⟨[], [[1], [], [2], []]⟩ = some ([1], true) ∧
    ([1] : List Nat) ≠ [1, 2] := by decide

/-- C6: once the derived-reader consumer is gone (`receiverAlive = false`,
i.e. the `SplitReceiver` was dropped), every read on the pass-through reader
returns exactly what the underlying source returns, and the forwarding
attempt is discarded without changing anything (`Splitter.read` is a total
function: it never blocks, stalls or surfaces an error from the dead
channel, because `let _ = self.tx.send(..)` drops the `SendError`). -/
theorem splitter_read_unaffected_by_dead_receiver
    (n : Nat) (s : SplitterState) (h : s.receiverAlive = false) :
    (Splitter.read n s).1 = (sourceRead n s.source).1 ∧
    (Splitter.read n s).2.source = (sourceRead n s.source).2 ∧
    (Splitter.read n s).2.sent = s.sent := by
  simp [Splitter.read, h]

/-- Witness for C6 at the state with source `[5, 6, 7]` and a dropped
receiver. -/
theorem splitter_read_unaffected_by_dead_receiver_witness :
    (⟨[5, 6, 7], false, [[9]]⟩ : SplitterState).receiverAlive = false ∧
    ((Splitter.read 2 ⟨[5, 6, 7], false, [[9]]⟩).1 =
        (sourceRead 2 [5, 6, 7]).1 ∧
      (Splitter.read 2 ⟨[5, 6, 7], false, [[9]]⟩).2.source =
        (sourceRead 2 [5, 6, 7]).2 ∧
      (Splitter.read 2 ⟨[5, 6, 7], false, [[9]]⟩).2.sent = [[9]]) :=
  ⟨rfl, splitter_read_unaffected_by_dead_receiver 2 ⟨[5, 6, 7], false, [[9]]⟩ rfl⟩

/-- C10: when a read on the pass-through reader returns zero bytes, a
zero-length chunk is still forwarded into the queue (the sender being
alive); and the derived reader, consuming a zero-length chunk at the head of
the queue, returns zero bytes — reporting end-of-stream — even though
further chunks may sit behind it in the queue. -/
theorem splitter_forwards_empty_chunk_and_receiver_reports_eof
    (n : Nat) (s : SplitterState)
    (halive : s.receiverAlive = true) (hout : (Splitter.read n s).1 = []) :
    (Splitter.read n s).2.sent = s.sent ++ [[]] ∧
    (∀ (m : Nat) (rest : List (List Nat)),
      SplitReceiver.read m ⟨[], [] :: rest⟩ = some ([], ⟨[], rest⟩)) ∧
    (∀ (m : Nat) (ms : List Nat) (rest : List (List Nat)),
      drain (m :: ms) ⟨[], [] :: rest⟩ = some ([], true)) := by
  refine ⟨?_, ?_, ?_⟩
  · simp only [Splitter.read, sourceRead] at hout ⊢
    simp [halive, hout]
  · intro m rest
    simp [SplitReceiver.read]
  · intro m ms rest
    simp [drain, SplitReceiver.read]

/-- Witness for C10: an exhausted source makes the next read return zero
bytes; the empty chunk is queued and a receiver holding it reports
end-of-stream with a non-empty chunk still behind it. -/
theorem splitter_forwards_empty_chunk_and_receiver_reports_eof_witness :
    (⟨[], true, [[4]]⟩ : SplitterState).receiverAlive = true ∧
    (Splitter.read 3 ⟨[], true, [[4]]⟩).1 = [] ∧
    ((Splitter.read 3 ⟨[], true, [[4]]⟩).2.sent = [[4]] ++ [[]] ∧
      (∀ (m : Nat) (rest : List (List Nat)),
        SplitReceiver.read m ⟨[], [] :: rest⟩ = some ([], ⟨[], rest⟩)) ∧
      (∀ (m : Nat) (ms : List Nat) (rest : List (List Nat)),
        drain (m :: ms) ⟨[], [] :: rest⟩ = some ([], true))) :=
  ⟨rfl, rfl,
    splitter_forwards_empty_chunk_and_receiver_reports_eof 3 ⟨[], true, [[4]]⟩ rfl rfl⟩

/-- Result of the label-wait loop of `run` (create_backup.rs, lines 49-63).
There is no error constructor for the zero-length-read case: in the source
that arm executes `unreachable!()`, i.e. the process panics instead of
returning an error. -/
inductive AssembleResult where
  | ok : List Nat → SplitterState → AssembleResult
  | panicUnreachable : AssembleResult
deriving DecidableEq

/-- Model of the label-wait loop of `run`: `k` counts the `label_rx.try_recv()`
polls that come back `Empty` before the scanner's result is available (the
`try_recv` happens before each read, so `assemble 0` breaks out immediately
with an empty accumulation buffer).  Each empty poll is followed by one read
of up to 4096 bytes from the pass-through reader, appended to
`backup_buffered`; a read that returns zero bytes reaches `unreachable!()`. -/
def assemble : Nat → SplitterState → AssembleResult
  | 0, s => .ok [] s
  | k + 1, s =>
    let out := (Splitter.read 4096 s).1
    let s₁ := (Splitter.read 4096 s).2
    if out.isEmpty then .panicUnreachable
    else
      match assemble k s₁ with
      | .ok buf s₂ => .ok (out ++ buf) s₂
      | .panicUnreachable => .panicUnreachable

/-- Model of `backup_buffered.as_slice().chain(backup_stream)` (line 81) read
to end-of-stream: the logical stream handed to the persister is the full
accumulation buffer followed by the bytes still to come from the
pass-through reader. -/
def persisted_stream (buffered tail_src : List Nat) : List Nat :=
  buffered ++ tail_src

/-- C2: whenever the label-wait loop finishes normally, the logical stream
fed to the persister — the accumulation buffer followed by the continued
direct reads from the pass-through reader until end-of-stream — is exactly
the producer's full byte sequence: zero bytes lost, zero bytes duplicated. -/
theorem assembler_stream_is_buffer_then_tail (k : Nat) :
    ∀ (s : SplitterState) (buf : List Nat) (s' : SplitterState),
      assemble k s = .ok buf s' →
      persisted_stream buf s'.source = s.source := by
  induction k with
  | zero =>
    intro s buf s' h
    simp only [assemble, AssembleResult.ok.injEq] at h
    obtain ⟨h1, h2⟩ := h
    subst h1 h2
    simp [persisted_stream]
  | succ k ih =>
    intro s buf s' h
    simp only [assemble, Splitter.read, sourceRead] at h
    by_cases hemp : (s.source.take 4096).isEmpty
    · rw [if_pos hemp] at h
      exact absurd h (by simp)
    · rw [if_neg hemp] at h
      cases hrec : assemble k ⟨s.source.drop 4096, s.receiverAlive,
          if s.receiverAlive = true then s.sent ++ [s.source.take 4096] else s.sent⟩ with
      | ok buf₁ s₂ =>
        rw [hrec] at h
        simp only [AssembleResult.ok.injEq] at h
        obtain ⟨h1, h2⟩ := h
        subst h1 h2
        have := ih _ _ _ hrec
        simp only [persisted_stream] at this ⊢
        rw [List.append_assoc, this]
        exact List.take_append_drop 4096 s.source
      | panicUnreachable =>
        rw [hrec] at h
        exact absurd h (by simp)

/-- Witness for C2: the label arrives after one poll, with producer bytes
`[1, 2]`; the persister stream is exactly `[1, 2]`. -/
theorem assembler_stream_is_buffer_then_tail_witness :
    assemble 1 ⟨[1, 2], true, []⟩ = .ok [1, 2] ⟨[], true, [[1, 2]]⟩ ∧
    persisted_stream [1, 2] (⟨[], true, [[1, 2]]⟩ : SplitterState).source = [1, 2] :=
  ⟨by decide,
    assembler_stream_is_buffer_then_tail 1 ⟨[1, 2], true, []⟩ [1, 2]
      ⟨[], true, [[1, 2]]⟩ (by decide)⟩

/-- C7 (code bug): when the pass-through reader returns zero bytes before any
label result has arrived (here: an already-exhausted producer and a label
still pending after one poll), `run` does not return the error
"producer ended before label entry was found" — the loop body executes
`unreachable!()` and the process panics.  `AssembleResult` has no error
constructor at all because the source has no error path there. -/
theorem assemble_panics_when_producer_ends_before_label :
    assemble 1 ⟨[], true, []⟩ = .panicUnreachable ∧
    ∀ (buf : List Nat) (s' : SplitterState),
      assemble 1 ⟨[], true, []⟩ ≠ .ok buf s' := by
  constructor
  · decide
  · intro buf s' h
    simp [assemble, Splitter.read, sourceRead] at h

/-- Name of the sentinel tar entry the scanner looks for (`"backup_label"`,
create_backup.rs line 138). -/
def sentinelName : List Char := ("backup_label").data

/-- Marker that selects the label line (`"START WAL LOCATION"`, line 143). -/
def walMarker : List Char := ("START WAL LOCATION").data

/-- Delimiter token the label line is split on (`"file"`, line 144). -/
def fileTok : List Char := ("file").data

/-- Number of bytes of a character in UTF-8, as used by Rust `&str` byte
indexing. -/
def charUtf8Len (c : Char) : Nat :=
  if c.val < 128 then 1 else if c.val < 2048 then 2 else if c.val < 65536 then 3 else 4

/-- Byte length of a Rust `&str` (`str::len`). -/
def utf8Len : List Char → Nat
  | [] => 0
  | c :: cs => charUtf8Len c + utf8Len cs

/-- Take exactly `b` bytes from the front of a string; `none` when `b`
overruns the string or does not land on a character boundary. -/
def takeBytes : List Char → Nat → Option (List Char)
  | [], b => if b = 0 then some [] else none
  | c :: cs, b =>
    if b = 0 then some []
    else if charUtf8Len c ≤ b then
      (takeBytes cs (b - charUtf8Len c)).map (fun t => c :: t)
    else none

/-- Drop exactly `b` bytes from the front of a string; `none` when `b`
overruns the string or does not land on a character boundary. -/
def dropBytes : List Char → Nat → Option (List Char)
  | [], b => if b = 0 then some [] else none
  | c :: cs, b =>
    if b = 0 then some (c :: cs)
    else if charUtf8Len c ≤ b then dropBytes cs (b - charUtf8Len c)
    else none

/-- Model of the Rust byte-range slice `s[a..b]` on a `&str`: `none` models
the panic, which Rust raises when `a > b`, when `b` exceeds the byte length,
or when either index is not a character boundary. -/
def byteSlice (s : List Char) (a b : Nat) : Option (List Char) :=
  if a ≤ b ∧ b ≤ utf8Len s then
    match dropBytes s a with
    | none => none
    | some t => takeBytes t (b - a)
  else none

/-- Model of Rust `line.split("file")`: the pieces of the string between
consecutive non-overlapping occurrences of `"file"`, scanned left to
right. -/
def splitOnFile : List Char → List (List Char)
  | [] => [[]]
  | 'f' :: 'i' :: 'l' :: 'e' :: rest => [] :: splitOnFile rest
  | c :: rest =>
    match splitOnFile rest with
    | [] => [[c]]
    | p :: ps => (c :: p) :: ps

/-- Interleaving the delimiter back between the pieces; inverse of
`splitOnFile`. -/
def joinFile : List (List Char) → List Char
  | [] => []
  | [p] => p
  | p :: ps => p ++ fileTok ++ joinFile ps

/-- Model of Rust `str::split('\n')` on a char list. -/
def splitNL : List Char → List (List Char)
  | [] => [[]]
  | c :: rest =>
    if c = '\n' then [] :: splitNL rest
    else
      match splitNL rest with
      | [] => [[c]]
      | p :: ps => (c :: p) :: ps

/-- Remove one trailing carriage return, if present. -/
def stripTrailingCR (l : List Char) : List Char :=
  if l.getLast? = some '\r' then l.dropLast else l

/-- Model of Rust `str::lines`: split at every newline, drop a final empty
piece produced by a trailing newline, and strip one `'\r'` from every line
that was terminated by a newline. -/
def rustLines (s : List Char) : List (List Char) :=
  if s = [] then []
  else if s.getLast? = some '\n' then ((splitNL s).dropLast).map stripTrailingCR
  else ((splitNL s).dropLast).map stripTrailingCR ++ [(splitNL s).getLastD []]

/-- Outcome of the loop body of `find_wal_label` for one line of the
sentinel entry (create_backup.rs, lines 142-151): no return (`noMatch`),
`return Ok(..)` (`ret`), or the panic of the slice
`part[1..part.len() - 1]` (`sliceBad`). -/
inductive LineOutcome where
  | noMatch : LineOutcome
  | ret : List Char → LineOutcome
  | sliceBad : LineOutcome
deriving DecidableEq

/-- Model of the per-line body of `find_wal_label`: on a line starting with
the marker, split on the delimiter, take piece index 1 if it exists, and
when its byte length is at least 1 slice off one leading and one trailing
byte. -/
def scanLine (line : List Char) : LineOutcome :=
  if walMarker.isPrefixOf line then
    match (splitOnFile line)[1]? with
    | none => .noMatch
    | some part =>
      if 1 ≤ utf8Len part then
        match byteSlice part 1 (utf8Len part - 1) with
        | some s => .ret s
        | none => .sliceBad
      else .noMatch
  else .noMatch

/-- Scan the lines of the sentinel entry's contents in order, stopping at
the first line whose body returns or panics. -/
def scanLines : List (List Char) → LineOutcome
  | [] => .noMatch
  | l :: ls =>
    match scanLine l with
    | .noMatch => scanLines ls
    | .ret s => .ret s
    | .sliceBad => .sliceBad

/-- Result of `find_wal_label` (create_backup.rs, lines 133-156): the label
(`Ok`), the `bail!("No backup label found")` error, or a panic from the
slice. -/
inductive ScanResult where
  | found : List Char → ScanResult
  | notFound : ScanResult
  | panicked : ScanResult
deriving DecidableEq

/-- Model of `find_wal_label` over the archive's entries, each given as an
entry name and its text contents.  Entries whose name is not the sentinel
name are skipped without their contents being parsed; the scan of a matching
entry's lines either returns, panics, or falls through to the next entry;
when the entries end, `bail!("No backup label found")`. -/
def find_wal_label : List (List Char × List Char) → ScanResult
  | [] => .notFound
  | (name, contents) :: rest =>
    if name = sentinelName then
      match scanLines (rustLines contents) with
      | .ret s => .found s
      | .sliceBad => .panicked
      | .noMatch => find_wal_label rest
    else find_wal_label rest

/-- Every character occupies at least one byte. -/
theorem charUtf8Len_pos (c : Char) : 0 < charUtf8Len c := by
  simp only [charUtf8Len]
  split_ifs <;> omega

/-- Byte length distributes over concatenation. -/
theorem utf8Len_append (a b : List Char) :
    utf8Len (a ++ b) = utf8Len a + utf8Len b := by
  induction a with
  | nil => simp [utf8Len]
  | cons c cs ih => simp [utf8Len, ih]; omega

/-- Dropping zero bytes is the identity. -/
theorem dropBytes_zero (l : List Char) : dropBytes l 0 = some l := by
  cases l <;> simp [dropBytes]

/-- Taking exactly the byte length of a proper list of leading characters
recovers them. -/
theorem takeBytes_exact (a b : List Char) :
    takeBytes (a ++ b) (utf8Len a) = some a := by
  induction a with
  | nil =>
    cases b <;> simp [takeBytes, utf8Len]
  | cons c cs ih =>
    have hpos := charUtf8Len_pos c
    have hne : charUtf8Len c + utf8Len cs ≠ 0 := by omega
    simp only [List.cons_append, takeBytes, utf8Len, if_neg hne,
      if_pos (Nat.le_add_right _ _), Nat.add_sub_cancel_left, List.append_eq, ih]
    rfl

/-- The slice `part[1..part.len() - 1]` succeeds and trims exactly the edge
characters when the part has a one-byte first character and a one-byte last
character. -/
theorem byteSlice_trim (c0 c1 : Char) (mid : List Char)
    (h0 : charUtf8Len c0 = 1) (h1 : charUtf8Len c1 = 1) :
    byteSlice (c0 :: mid ++ [c1]) 1 (utf8Len (c0 :: mid ++ [c1]) - 1) = some mid := by
  have hone : utf8Len [c1] = 1 := by simp [utf8Len, h1]
  have hlen : utf8Len (c0 :: mid ++ [c1]) = utf8Len mid + 2 := by
    show charUtf8Len c0 + utf8Len (mid ++ [c1]) = utf8Len mid + 2
    rw [utf8Len_append, h0, hone]
    omega
  rw [hlen]
  have hcond : 1 ≤ utf8Len mid + 2 - 1 ∧ utf8Len mid + 2 - 1 ≤ utf8Len (c0 :: mid ++ [c1]) := by
    rw [hlen]; omega
  simp only [byteSlice, if_pos hcond]
  have hdrop : dropBytes (c0 :: mid ++ [c1]) 1 = some (mid ++ [c1]) := by
    simp only [dropBytes, h0, if_neg (by omega : (1 : Nat) ≠ 0), if_pos (by omega : 1 ≤ 1)]
    simpa using dropBytes_zero (mid ++ [c1])
  rw [hdrop]
  have : utf8Len mid + 2 - 1 - 1 = utf8Len mid := by omega
  rw [this]
  have := takeBytes_exact mid [c1]
  exact this

/-- `splitOnFile` never produces an empty list of pieces. -/
theorem splitOnFile_ne_nil (s : List Char) : splitOnFile s ≠ [] := by
  induction s using splitOnFile.induct with
  | case1 => simp [splitOnFile.eq_1]
  | case2 rest ih => simp [splitOnFile.eq_2]
  | case3 c rest hne hnil ih => exact absurd hnil ih
  | case4 c rest hne p ps hcons ih =>
    rw [splitOnFile.eq_3 c rest hne, hcons]
    simp

/-- Prepending a character to the first piece commutes with joining. -/
theorem joinFile_cons (c : Char) (q : List Char) (qs : List (List Char)) :
    joinFile ((c :: q) :: qs) = c :: joinFile (q :: qs) := by
  cases qs with
  | nil => rfl
  | cons y ys => rfl

/-- Joining the pieces of `splitOnFile` with the delimiter recovers the
original line: the pieces really are the segments of the line between
consecutive occurrences of the delimiter token. -/
theorem joinFile_splitOnFile (s : List Char) : joinFile (splitOnFile s) = s := by
  induction s using splitOnFile.induct with
  | case1 => rfl
  | case2 rest ih =>
    rw [splitOnFile.eq_2]
    cases hq : splitOnFile rest with
    | nil => exact absurd hq (splitOnFile_ne_nil rest)
    | cons q qs =>
      rw [hq] at ih
      show ([] : List Char) ++ fileTok ++ joinFile (q :: qs) = 'f' :: 'i' :: 'l' :: 'e' :: rest
      rw [ih]
      rfl
  | case3 c rest hne hnil ih => exact absurd hnil (splitOnFile_ne_nil rest)
  | case4 c rest hne p ps hcons ih =>
    rw [splitOnFile.eq_3 c rest hne, hcons]
    show joinFile ((c :: p) :: ps) = c :: rest
    rw [hcons] at ih
    rw [joinFile_cons, ih]

/-- A line that does not start with the marker produces no outcome. -/
theorem scanLine_noMatch_of_no_marker (l : List Char)
    (h : walMarker.isPrefixOf l = false) : scanLine l = .noMatch := by
  simp [scanLine, h]

/-- Lines without an outcome are skipped by the line scan. -/
theorem scanLines_append_noMatch (pre ls : List (List Char))
    (h : ∀ l ∈ pre, scanLine l = .noMatch) :
    scanLines (pre ++ ls) = scanLines ls := by
  induction pre with
  | nil => rfl
  | cons l tl ih =>
    have hl : scanLine l = .noMatch := h l (by simp)
    simp only [List.cons_append, scanLines, hl]
    exact ih (fun x hx => h x (by simp [hx]))

/-- Entries that are not named like the sentinel are skipped by the entry
scan without their contents being inspected. -/
theorem find_wal_label_append (others es : List (List Char × List Char))
    (h : ∀ p ∈ others, p.1 ≠ sentinelName) :
    find_wal_label (others ++ es) = find_wal_label es := by
  induction others with
  | nil => rfl
  | cons e tl ih =>
    obtain ⟨name, contents⟩ := e
    have hn : name ≠ sentinelName := h (name, contents) (by simp)
    simp only [List.cons_append, find_wal_label, if_neg hn]
    exact ih (fun x hx => h x (by simp [hx]))

/-- A marker line whose piece at index 1 has one-byte edge characters makes
the line body return the piece with those edges trimmed. -/
theorem scanLine_ret (line p0 part : List Char) (ps : List (List Char))
    (mid : List Char) (c0 c1 : Char)
    (hmark : walMarker.isPrefixOf line = true)
    (hsplit : splitOnFile line = p0 :: part :: ps)
    (hpart : part = c0 :: mid ++ [c1])
    (h0 : charUtf8Len c0 = 1) (h1 : charUtf8Len c1 = 1) :
    scanLine line = .ret mid := by
  have hget : (splitOnFile line)[1]? = some part := by rw [hsplit]; simp
  have hlen : 1 ≤ utf8Len part := by
    rw [hpart]
    show 1 ≤ charUtf8Len c0 + utf8Len (mid ++ [c1])
    have := charUtf8Len_pos c0
    omega
  have hslice : byteSlice part 1 (utf8Len part - 1) = some mid := by
    rw [hpart]
    exact byteSlice_trim c0 c1 mid h0 h1
  simp [scanLine, hmark, hget, hlen, hslice]

/-- C4 (amended): in an archive whose sentinel entry follows any entries not
named like the sentinel, for the first line of the sentinel entry's contents
beginning with the marker prefix, `find_wal_label` returns the substring
between the first occurrence of the delimiter token and the next occurrence
of the delimiter token or the line's end (the piece at index 1 of the
delimiter split — the first conclusion shows the line really is the first
piece, the delimiter, and the joined remaining pieces), with exactly one
leading and one trailing (one-byte) character trimmed; it returns on this
first match, whatever lines and entries follow.  Instantiated by the
witness on the line
`START WAL LOCATION: 0/3000028 (file 000000010000000000000003)`, it returns
`000000010000000000000003`. -/
theorem find_wal_label_extracts_trimmed_segment
    (others rest : List (List Char × List Char)) (contents : List Char)
    (preLines postLines : List (List Char)) (line p0 part : List Char)
    (ps : List (List Char)) (mid : List Char) (c0 c1 : Char)
    (hothers : ∀ p ∈ others, p.1 ≠ sentinelName)
    (hlines : rustLines contents = preLines ++ line :: postLines)
    (hpre : ∀ l ∈ preLines, walMarker.isPrefixOf l = false)
    (hmark : walMarker.isPrefixOf line = true)
    (hsplit : splitOnFile line = p0 :: part :: ps)
    (hpart : part = c0 :: mid ++ [c1])
    (h0 : charUtf8Len c0 = 1) (h1 : charUtf8Len c1 = 1) :
    line = p0 ++ fileTok ++ joinFile (part :: ps) ∧
    find_wal_label (others ++ (sentinelName, contents) :: rest) = .found mid := by
  constructor
  · have hjoin := joinFile_splitOnFile line
    rw [hsplit] at hjoin
    rw [← hjoin]
    rfl
  · rw [find_wal_label_append others _ hothers]
    have hscan : scanLines (rustLines contents) = .ret mid := by
      rw [hlines, scanLines_append_noMatch _ _
        (fun l hl => scanLine_noMatch_of_no_marker l (hpre l hl))]
      simp only [scanLines, scanLine_ret line p0 part ps mid c0 c1 hmark hsplit hpart h0 h1]
    simp [find_wal_label, hscan]

/-- Witness for C4 on the claim's own concrete instance. -/
theorem find_wal_label_extracts_trimmed_segment_witness :
    (∀ p ∈ ([] : List (List Char × List Char)), p.1 ≠ sentinelName) ∧
    rustLines (("START WAL LOCATION: 0/3000028 (file 000000010000000000000003)\nCHECKPOINT LOCATION: 0/3000060\n").data) =
      [] ++ ("START WAL LOCATION: 0/3000028 (file 000000010000000000000003)").data ::
        [("CHECKPOINT LOCATION: 0/3000060").data] ∧
    (∀ l ∈ ([] : List (List Char)), walMarker.isPrefixOf l = false) ∧
    walMarker.isPrefixOf (("START WAL LOCATION: 0/3000028 (file 000000010000000000000003)").data) = true ∧
    splitOnFile (("START WAL LOCATION: 0/3000028 (file 000000010000000000000003)").data) =
      ("START WAL LOCATION: 0/3000028 (").data :: (" 000000010000000000000003)").data :: [] ∧
    (" 000000010000000000000003)").data = ' ' :: ("000000010000000000000003").data ++ [')'] ∧
    charUtf8Len ' ' = 1 ∧ charUtf8Len ')' = 1 ∧
    ((("START WAL LOCATION: 0/3000028 (file 000000010000000000000003)").data =
        ("START WAL LOCATION: 0/3000028 (").data ++ fileTok ++
          joinFile ((" 000000010000000000000003)").data :: [])) ∧
      find_wal_label ([] ++ (sentinelName,
          ("START WAL LOCATION: 0/3000028 (file 000000010000000000000003)\nCHECKPOINT LOCATION: 0/3000060\n").data) :: []) =
        .found (("000000010000000000000003").data)) :=
  ⟨by decide, by decide, by decide, by decide, by decide, by decide, by decide, by decide,
    find_wal_label_extracts_trimmed_segment [] []
      (("START WAL LOCATION: 0/3000028 (file 000000010000000000000003)\nCHECKPOINT LOCATION: 0/3000060\n").data)
      [] [("CHECKPOINT LOCATION: 0/3000060").data]
      (("START WAL LOCATION: 0/3000028 (file 000000010000000000000003)").data)
      (("START WAL LOCATION: 0/3000028 (").data) ((" 000000010000000000000003)").data)
      [] (("000000010000000000000003").data) ' ' ')'
      (by decide) (by decide) (by decide) (by decide) (by decide) (by decide)
      (by decide) (by decide)⟩

/-- Counterexample to C4 as stated: on the marker line
`START WAL LOCATION: 0/1 (file aafilebb)` the delimiter token occurs twice;
the substring between the delimiter token and the line's end is
` aafilebb)`, which trimmed by one leading and one trailing character is
`aafilebb` — but `find_wal_label` returns `a`, because `split("file")[1]`
is the segment ` aa` between the two delimiter occurrences, not the text to
the line's end. -/
theorem find_wal_label_second_delimiter_counterexample :
    find_wal_label [(("backup_label").data,
      ("START WAL LOCATION: 0/1 (file aafilebb)").data)] = .found (("a").data) ∧
    ("a").data ≠ ("aafilebb").data := by decide

/-- Lines without the marker make the line scan fall through. -/
theorem scanLines_noMatch (ls : List (List Char))
    (h : ∀ l ∈ ls, walMarker.isPrefixOf l = false) : scanLines ls = .noMatch := by
  induction ls with
  | nil => rfl
  | cons l tl ih =>
    simp only [scanLines, scanLine_noMatch_of_no_marker l (h l (by simp))]
    exact ih (fun x hx => h x (by simp [hx]))

/-- C5: for every archive whose entries either are not named like the
sentinel or have contents without any line starting with the marker,
`find_wal_label` consumes all entries and fails with the
`"No backup label found"` error; it terminates (the scan is a total,
structurally recursive function of the entry list), and contents of entries
not named like the sentinel are never inspected, so they cannot fail the
scan. -/
theorem find_wal_label_fails_not_found_without_matching_line
    (entries : List (List Char × List Char))
    (H : ∀ p ∈ entries, p.1 = sentinelName →
      ∀ l ∈ rustLines p.2, walMarker.isPrefixOf l = false) :
    find_wal_label entries = .notFound := by
  induction entries with
  | nil => rfl
  | cons e tl ih =>
    obtain ⟨name, contents⟩ := e
    by_cases hn : name = sentinelName
    · have hsc := scanLines_noMatch (rustLines contents) (H (name, contents) (by simp) hn)
      simp only [find_wal_label, if_pos hn, hsc]
      exact ih (fun x hx h1 => H x (by simp [hx]) h1)
    · simp only [find_wal_label, if_neg hn]
      exact ih (fun x hx h1 => H x (by simp [hx]) h1)

/-- Witness for C5: one unrelated entry (whose contents even contain a
marker-like line) and one sentinel entry without a marker line. -/
theorem find_wal_label_fails_not_found_without_matching_line_witness :
    (∀ p ∈ [((("other").data : List Char), (("START WAL LOCATION: 0/1 (file x)").data : List Char)),
        ((("backup_label").data : List Char), (("CHECKPOINT LOCATION: 0/2\n").data : List Char))],
      p.1 = sentinelName → ∀ l ∈ rustLines p.2, walMarker.isPrefixOf l = false) ∧
    find_wal_label [(("other").data, ("START WAL LOCATION: 0/1 (file x)").data),
      (("backup_label").data, ("CHECKPOINT LOCATION: 0/2\n").data)] = .notFound :=
  ⟨by decide,
    find_wal_label_fails_not_found_without_matching_line
      [(("other").data, ("START WAL LOCATION: 0/1 (file x)").data),
        (("backup_label").data, ("CHECKPOINT LOCATION: 0/2\n").data)] (by decide)⟩

/-- A post-delimiter segment on which the slice `part[1..part.len() - 1]`
cannot panic: either empty (the `part.len() >= 1` guard then skips the
slice) or at least two characters long with a one-byte first character and
a one-byte last character (so both slice indices are in bounds and on
character boundaries). -/
def safeSeg (part : List Char) : Prop :=
  part = [] ∨
    (2 ≤ part.length ∧ charUtf8Len (part.headD 'a') = 1 ∧
      charUtf8Len (part.getLastD 'a') = 1)

instance (part : List Char) : Decidable (safeSeg part) := by
  unfold safeSeg
  infer_instance

/-- A list of length at least two decomposes into its first character, a
middle, and its last character. -/
theorem safeSeg_decomp (part : List Char) (h2 : 2 ≤ part.length) :
    ∃ c0 mid c1, part = c0 :: mid ++ [c1] ∧
      part.headD 'a' = c0 ∧ part.getLastD 'a' = c1 := by
  cases part with
  | nil => simp at h2
  | cons c0 t =>
    have ht : t ≠ [] := by
      intro h
      subst h
      simp at h2
    rcases List.eq_nil_or_concat t with h | ⟨mid, c1, h⟩
    · exact absurd h ht
    · rw [List.concat_eq_append] at h
      subst h
      refine ⟨c0, mid, c1, rfl, rfl, ?_⟩
      show (c0 :: (mid ++ [c1])).getLastD 'a' = c1
      rw [List.getLastD_eq_getLast?,
        show c0 :: (mid ++ [c1]) = (c0 :: mid) ++ [c1] from rfl,
        List.getLast?_concat]
      rfl

/-- A line all of whose candidate segments are safe cannot make the line
body panic. -/
theorem scanLine_ne_sliceBad (l : List Char)
    (h : walMarker.isPrefixOf l = true →
      ∀ part, (splitOnFile l)[1]? = some part → safeSeg part) :
    scanLine l ≠ .sliceBad := by
  by_cases hm : walMarker.isPrefixOf l = true
  · cases hget : (splitOnFile l)[1]? with
    | none => simp [scanLine, hm, hget]
    | some part =>
      rcases h hm part hget with hemp | ⟨h2, hh, hl⟩
      · subst hemp
        simp [scanLine, hm, hget, utf8Len]
      · obtain ⟨c0, mid, c1, hdecomp, hh', hl'⟩ := safeSeg_decomp part h2
        have h0 : charUtf8Len c0 = 1 := by rw [← hh']; exact hh
        have h1 : charUtf8Len c1 = 1 := by rw [← hl']; exact hl
        have hlen : 1 ≤ utf8Len part := by
          rw [hdecomp]
          show 1 ≤ charUtf8Len c0 + utf8Len (mid ++ [c1])
          have := charUtf8Len_pos c0
          omega
        have hslice : byteSlice part 1 (utf8Len part - 1) = some mid := by
          rw [hdecomp]
          exact byteSlice_trim c0 c1 mid h0 h1
        simp [scanLine, hm, hget, hlen, hslice]
  · have hm' : walMarker.isPrefixOf l = false := by
      cases hb : walMarker.isPrefixOf l
      · rfl
      · exact absurd hb hm
    rw [scanLine_noMatch_of_no_marker l hm']
    simp

/-- Contents all of whose candidate segments are safe cannot make the line
scan panic. -/
theorem scanLines_ne_sliceBad (ls : List (List Char))
    (h : ∀ l ∈ ls, walMarker.isPrefixOf l = true →
      ∀ part, (splitOnFile l)[1]? = some part → safeSeg part) :
    scanLines ls ≠ .sliceBad := by
  induction ls with
  | nil => simp [scanLines]
  | cons l tl ih =>
    have hl := scanLine_ne_sliceBad l (h l (by simp))
    cases hsc : scanLine l with
    | noMatch =>
      simp only [scanLines, hsc]
      exact ih (fun x hx => h x (by simp [hx]))
    | ret s => simp [scanLines, hsc]
    | sliceBad => exact absurd hsc hl

/-- C8 (amended): for every archive in which each marker-prefixed line of a
sentinel-named entry has a safe post-delimiter segment — the piece at index
1 of the delimiter split is either absent, empty, or at least two
characters with one-byte edge characters — the label extraction performs
only in-bounds slicing: `find_wal_label` either returns a label or falls
through to the label-not-found error, never the slice panic.  (The
counterexample shows the restriction is necessary: a one-byte segment makes
the slice `part[1..0]` panic, and a multi-byte edge character would make an
index fall inside a character.) -/
theorem find_wal_label_no_panic_on_safe_segments
    (entries : List (List Char × List Char))
    (H : ∀ p ∈ entries, p.1 = sentinelName →
      ∀ l ∈ rustLines p.2, walMarker.isPrefixOf l = true →
      ∀ part, (splitOnFile l)[1]? = some part → safeSeg part) :
    find_wal_label entries ≠ .panicked := by
  induction entries with
  | nil => simp [find_wal_label]
  | cons e tl ih =>
    obtain ⟨name, contents⟩ := e
    by_cases hn : name = sentinelName
    · have hsl := scanLines_ne_sliceBad (rustLines contents) (H (name, contents) (by simp) hn)
      cases hsc : scanLines (rustLines contents) with
      | ret s => simp [find_wal_label, hn, hsc]
      | sliceBad => exact absurd hsc hsl
      | noMatch =>
        simp only [find_wal_label, if_pos hn, hsc]
        exact ih (fun x hx => H x (by simp [hx]))
    · simp only [find_wal_label, if_neg hn]
      exact ih (fun x hx => H x (by simp [hx]))

/-- Witness for C8 on a well-formed backup_label entry. -/
theorem find_wal_label_no_panic_on_safe_segments_witness :
    (∀ p ∈ [((("backup_label").data : List Char),
        (("START WAL LOCATION: 0/3000028 (file 000000010000000000000003)\nCHECKPOINT LOCATION: 0/3000060\n").data : List Char))],
      p.1 = sentinelName →
      ∀ l ∈ rustLines p.2, walMarker.isPrefixOf l = true →
      ∀ part, (splitOnFile l)[1]? = some part → safeSeg part) ∧
    find_wal_label [(("backup_label").data,
      ("START WAL LOCATION: 0/3000028 (file 000000010000000000000003)\nCHECKPOINT LOCATION: 0/3000060\n").data)] ≠
      .panicked :=
  ⟨by decide,
    find_wal_label_no_panic_on_safe_segments
      [(("backup_label").data,
        ("START WAL LOCATION: 0/3000028 (file 000000010000000000000003)\nCHECKPOINT LOCATION: 0/3000060\n").data)]
      (by decide)⟩

/-- Counterexample to C8 as stated: the sentinel entry content
`START WAL LOCATION: 0/1 (fileX` is a possible text content of the sentinel
entry with a matching line where a single character follows the delimiter
token; the segment `X` passes the `part.len() >= 1` guard, and the slice
`part[1..0]` panics (slice index starts at 1 but ends at 0), so
`find_wal_label` panics instead of returning a label or the label-not-found
error. -/
theorem find_wal_label_panics_on_one_byte_segment :
    find_wal_label [(("backup_label").data,
      ("START WAL LOCATION: 0/1 (fileX").data)] = .panicked := by decide

/-- Possible outcomes of a serde deserialization step in
`src/backup/manifest.rs`: a decoded value, a reported decode error, or a
process abort (panic). -/
inductive DecodeResult (α : Type) where
  | ok : α → DecodeResult α
  | decodeError : DecodeResult α
  | panicked : DecodeResult α
deriving DecidableEq

/-- Value of a single hexadecimal digit, upper or lower case. -/
def hexVal (c : Char) : Option Nat :=
  if '0' ≤ c ∧ c ≤ '9' then some (c.toNat - ('0').toNat)
  else if 'a' ≤ c ∧ c ≤ 'f' then some (c.toNat - ('a').toNat + 10)
  else if 'A' ≤ c ∧ c ≤ 'F' then some (c.toNat - ('A').toNat + 10)
  else none

/-- Decode a hex string two digits at a time into bytes; `none` on an odd
length or a non-hex character. -/
def hexDecodePairs : List Char → Option (List Nat)
  | [] => some []
  | [_] => none
  | a :: b :: rest =>
    match hexVal a, hexVal b, hexDecodePairs rest with
    | some x, some y, some r => some ((16 * x + y) :: r)
    | _, _, _ => none

/-- Model of `blake3::Hash::from_hex`: succeeds exactly on a well-formed hex
string of 64 digits, producing the 32 digest bytes. -/
def hashFromHex (s : List Char) : Option (List Nat) :=
  match hexDecodePairs s with
  | some bytes => if bytes.length = 32 then some bytes else none
  | none => none

/-- Model of `impl Deserialize for ChunkRef` (manifest.rs, lines 33-42): the
deserialized string is fed to `blake3::Hash::from_hex(&s).unwrap()` — the
`.unwrap()` turns every malformed input into a panic; no decode error is
ever produced. -/
def ChunkRef.deserialize (s : List Char) : DecodeResult (List Nat) :=
  match hashFromHex s with
  | some h => .ok h
  | none => .panicked

/-- C3 (code bug): deserializing a `ChunkRef` from a malformed string — a
non-hex string (`"zz"`), a wrong-length hex string (`"00ff"`), or an
odd-length string (`"abc"`) — panics via `.unwrap()` instead of returning a
decode error, for every malformed input (the `none` arm of `hashFromHex` is
mapped to a panic unconditionally). -/
theorem chunkref_deserialize_panics_on_malformed_hex :
    ChunkRef.deserialize (("zz").data) = .panicked ∧
    ChunkRef.deserialize (("00ff").data) = .panicked ∧
    ChunkRef.deserialize (("abc").data) = .panicked ∧
    (∀ s : List Char, hashFromHex s = none → ChunkRef.deserialize s = .panicked) ∧
    (∀ s : List Char, ChunkRef.deserialize s ≠ .decodeError) := by
  refine ⟨by decide, by decide, by decide, ?_, ?_⟩
  · intro s h
    simp [ChunkRef.deserialize, h]
  · intro s
    cases h : hashFromHex s <;> simp [ChunkRef.deserialize, h]

/-- Model of `deserialize_timestamp` (manifest.rs, lines 51-57): the decoded
integer is fed to `OffsetDateTime::from_unix_timestamp(ts).unwrap()`.
`from_unix_timestamp` succeeds exactly on seconds values representable in
the supported year range -9999..=9999, i.e. between -377705116800
(-9999-01-01T00:00:00Z) and 253402300799 (9999-12-31T23:59:59Z); the
`.unwrap()` turns the out-of-range error into a panic. -/
def deserialize_timestamp (ts : Int) : DecodeResult Int :=
  if -377705116800 ≤ ts ∧ ts ≤ 253402300799 then .ok ts else .panicked

/-- C9: there is an out-of-range timestamp value — for instance 10^12
seconds, beyond the largest representable timestamp — whose deserialization
panics (aborts the process) rather than returning a decode error; in-range
values still decode. -/
theorem deserialize_timestamp_panics_out_of_range :
    deserialize_timestamp 1000000000000 = .panicked ∧
    deserialize_timestamp 1000000000000 ≠ .decodeError ∧
    (∀ ts : Int, deserialize_timestamp ts ≠ .decodeError) ∧
    deserialize_timestamp 0 = .ok 0 := by
  refine ⟨by decide, by decide, ?_, by decide⟩
  intro ts
  by_cases h : -377705116800 ≤ ts ∧ ts ≤ 253402300799 <;>
    simp [deserialize_timestamp, h]
